import Mathlib

/-!
Verification development for the Chess-Rust repository (FrancoGiachetta27/Chess-Rust).

The repository contains two divergent implementation generations:

* Generation A: src/src/king.rs together with src/src/board.rs
  (tile states Empty / NotEmpty / HighLighted, a per-tile piece entity).
* Generation B: src/src/piece.rs together with src/src/main.rs
  (the `move_piece` / `reset_neighbors` systems; this generation references a
  tile variant `WithCircle` and a `movements` module whose sources are not in
  the repository snapshot).

The embedding below models the entity-component state of the game as a
`World`: a tile storage mapping board positions to tile entities, per-entity
tile states, per-entity transforms (abstracted to board coordinates, since
every transform handled by the core is produced by `center_in_world` and read
back by `from_world_pos`), piece components, and the set of highlight-marker
entities.  Rust `unwrap` calls are modelled by `Option`: a `none` result of a
modelled system means the original code would panic.
-/

/-- Team component (src/src/piece.rs, enum Team). -/
inductive Team
  | White
  | Black
deriving DecidableEq, Repr

/-- Piece component (src/src/piece.rs, enum Piece; the rook is spelled
`Rock` in the source). -/
inductive Piece
  | Pawn
  | Rock
  | Knight
  | Bishop
  | Queen
  | King
deriving DecidableEq, Repr

/-- Tile occupancy state (src/src/board.rs, enum Tile).  The `WithCircle`
variant does not appear in the copy of board.rs in the snapshot but is
required by src/src/piece.rs (`Tile::WithCircle`); it belongs to the missing
generation-B board module and marks a square currently offered as a
destination by a spawned circle marker. -/
inductive Tile
  | Empty
  | NotEmpty
  | HighLighted
  | WithCircle
deriving DecidableEq, Repr

/-- Board coordinate (bevy_ecs_tilemap TilePos: unsigned x/y). -/
structure TilePos where
  x : Nat
  y : Nat
deriving DecidableEq, Repr

/-- ECS entity identifiers, used opaquely. -/
abbrev Entity := Nat

/-- Per-tile state component (src/src/board.rs, struct TileState). -/
structure TileState where
  tile_type : Tile
  piece_ent : Option Entity
deriving DecidableEq, Repr

/-- The board is the fixed 8x8 map (`TilemapSize { x: 8, y: 8 }`). -/
def is_on_board (p : TilePos) : Bool :=
  decide (p.x < 8) && decide (p.y < 8)

/-- All 64 board coordinates. -/
def allPositions : List TilePos :=
  (List.range 8).flatMap (fun x => (List.range 8).map (fun y => ⟨x, y⟩))

/-- Tile storage.  Modelled from the spec: the concrete storage is
bevy_ecs_tilemap's `TileStorage` (library code, not part of this
repository); per section 4.1 of the spec, a lookup at an out-of-range
coordinate fails with an empty result instead of crashing, so `get`
bounds-checks against the 8x8 map before consulting the table. -/
structure TileStorage where
  tiles : TilePos → Option Entity

/-- Bounds-checked tile lookup. -/
def TileStorage.get (s : TileStorage) (p : TilePos) : Option Entity :=
  if is_on_board p then s.tiles p else none

/-- The entity-component state visible to the modelled systems. -/
structure World where
  storage : TileStorage
  tileState : Entity → Option TileState
  transform : Entity → Option TilePos
  pieceKind : Entity → Option Piece
  pieceTeam : Entity → Option Team
  highlights : List Entity

/-- Overwrite the `TileState` component of one entity
(`tile_state_q.get_mut` followed by an assignment). -/
def World.setTileState (w : World) (e : Entity) (st : TileState) : World :=
  { w with tileState := fun x => if x = e then some st else w.tileState x }

/-- Overwrite the transform of one entity (abstracted to a board
coordinate). -/
def World.setTransform (w : World) (e : Entity) (p : TilePos) : World :=
  { w with transform := fun x => if x = e then some p else w.transform x }

/-- Despawn one entity (`commands.entity(ent).despawn_recursive()`): its
transform disappears and it stops matching the `With<HighLight>` query. -/
def World.despawn (w : World) (e : Entity) : World :=
  { w with
    transform := fun x => if x = e then none else w.transform x,
    highlights := w.highlights.filter (fun x => x != e) }

/-- The tile state sitting at a board coordinate. -/
def tileAt (w : World) (p : TilePos) : Option TileState :=
  (w.storage.get p).bind w.tileState

/-! ### Generation A: King::movement (src/src/king.rs) -/

/-- The eight unit offsets of a square grid with diagonals, as used by
bevy_ecs_tilemap's `Neighbors::get_square_neighboring_positions` with
`include_diagonals = true` (library code; north is +y, east is +x). -/
def neighbor_offsets : List (Int × Int) :=
  [(0, 1), (0, -1), (1, 0), (-1, 0), (1, 1), (-1, 1), (1, -1), (-1, -1)]

/-- Apply an offset to a position, failing when the result leaves the 8x8
map (the library only returns in-bounds neighbors). -/
def checkedOffset (p : TilePos) (off : Int × Int) : Option TilePos :=
  let nx : Int := (p.x : Int) + off.1
  let ny : Int := (p.y : Int) + off.2
  if 0 ≤ nx ∧ nx < 8 ∧ 0 ≤ ny ∧ ny < 8 then some ⟨nx.toNat, ny.toNat⟩ else none

/-- The library call `Neighbors::get_square_neighboring_positions(&tile_pos, map_size, true)`:
the on-board squares of the 3x3 neighborhood, center excluded. -/
def getSquareNeighboringPositions (p : TilePos) : List TilePos :=
  neighbor_offsets.filterMap (checkedOffset p)

/-- Spec-side description of the squares King::movement is claimed to
consider: the on-board squares of the 3x3 neighborhood of the origin,
center excluded (written from the claim, to be compared with
`getSquareNeighboringPositions`). -/
def inKingNeighborhood (o p : TilePos) : Bool :=
  is_on_board p &&
    decide (((p.x : Int) - o.x).natAbs ≤ 1) &&
    decide (((p.y : Int) - o.y).natAbs ≤ 1) &&
    !(decide (p.x = o.x) && decide (p.y = o.y))

/-- The King component (src/src/king.rs, struct King). -/
structure King where
  team : Team
deriving DecidableEq, Repr

/-- The loop body of `King::movement` over the neighbor list.  The
accumulator records the squares passed to `highlight_tile` (the marker
spawn requests).  A `none` result models an `unwrap` panic. -/
def king_go (self : King) : List TilePos → World → List TilePos →
    Option (World × List TilePos)
  | [], w, acc => some (w, acc)
  | pos :: rest, w, acc =>
    match w.storage.get pos with
    | none => none
    | some neigh_ent =>
      match w.tileState neigh_ent with
      | none => none
      | some tile_s =>
        if tile_s.tile_type = Tile.Empty then
          king_go self rest
            (w.setTileState neigh_ent { tile_s with tile_type := Tile.HighLighted })
            (acc ++ [pos])
        else
          match tile_s.piece_ent with
          | some e =>
            match w.pieceTeam e with
            | none => none
            | some t =>
              if t ≠ self.team then
                king_go self rest
                  (w.setTileState neigh_ent { tile_s with tile_type := Tile.HighLighted })
                  (acc ++ [pos])
              else
                king_go self rest w acc
          | none => king_go self rest w acc

/-- The system `King::movement` (src/src/king.rs lines 27-63): walk the on-board
neighbors of `tile_pos`; an Empty neighbor is highlighted, an occupied
neighbor is highlighted exactly when its piece belongs to the other team.
Returns the updated world and the highlighted squares. -/
def King.movement (self : King) (w : World) (tile_pos : TilePos) :
    Option (World × List TilePos) :=
  king_go self (getSquareNeighboringPositions tile_pos) w []

/-- Decidable well-formedness of the world at one square, as needed for the
`unwrap`s of `King::movement` not to panic: the square resolves to a tile
entity carrying a `TileState`, and a recorded piece entity carries a team. -/
def kingWfAt (w : World) (p : TilePos) : Bool :=
  match w.storage.get p with
  | none => false
  | some e =>
    match w.tileState e with
    | none => false
    | some st =>
      match st.piece_ent with
      | none => true
      | some pe => (w.pieceTeam pe).isSome

/-- The highlight decision `King::movement` makes for one square, read off
the pre-state. -/
def wantsHighlight (w : World) (team : Team) (p : TilePos) : Bool :=
  match tileAt w p with
  | none => false
  | some st =>
    if st.tile_type = Tile.Empty then true
    else
      match st.piece_ent with
      | none => false
      | some e =>
        match w.pieceTeam e with
        | none => false
        | some t => decide (t ≠ team)

/-- Spec-side: the square is Empty. -/
def specEmptySquare (w : World) (p : TilePos) : Prop :=
  ∃ st, tileAt w p = some st ∧ st.tile_type = Tile.Empty

/-- Spec-side: the square is occupied by a piece of the team opposing
`team`. -/
def specOpposingSquare (w : World) (p : TilePos) (team : Team) : Prop :=
  ∃ st e t, tileAt w p = some st ∧ st.tile_type ≠ Tile.Empty ∧
    st.piece_ent = some e ∧ w.pieceTeam e = some t ∧ t ≠ team

/-- Spec-side: the square is occupied by a piece of `team` itself. -/
def specSameTeamSquare (w : World) (p : TilePos) (team : Team) : Prop :=
  ∃ st e, tileAt w p = some st ∧ st.tile_type ≠ Tile.Empty ∧
    st.piece_ent = some e ∧ w.pieceTeam e = some team

/-! ### Generation B: move_piece and reset_neighbors (src/src/piece.rs) -/

/-- The commit loop of `move_piece` (src/src/piece.rs lines 198-242):
for each circle entity whose selection just changed, resolve its transform
to a tile; when that tile carries `WithCircle`, set it to `NotEmpty`,
resolve the moving entity `s`'s transform to its old tile, set the old
tile to `Empty` and relocate `s` to the destination tile's center.
A circle without a transform is skipped (`if let Ok`); failed storage or
state lookups model `unwrap` panics as `none`. -/
def move_loop (s : Entity) : List Entity → World → Option World
  | [], w => some w
  | c :: rest, w =>
    match w.transform c with
    | none => move_loop s rest w
    | some tile_pos =>
      match w.storage.get tile_pos with
      | none => none
      | some dest_ent =>
        match w.tileState dest_ent with
        | none => none
        | some tile_s =>
          if tile_s.tile_type = Tile.WithCircle then
            match w.transform s with
            | none => none
            | some old_tile =>
              let w1 := w.setTileState dest_ent { tile_s with tile_type := Tile.NotEmpty }
              match w1.storage.get old_tile with
              | none => none
              | some old_ent =>
                match w1.tileState old_ent with
                | none => none
                | some old_s =>
                  let w2 := w1.setTileState old_ent { old_s with tile_type := Tile.Empty }
                  move_loop s rest (w2.setTransform s tile_pos)
          else
            move_loop s rest w

/-- The helper `reset_neighbors` (src/src/piece.rs lines 262-289): resolve the marker
entity's transform to a tile; reset that tile to `Empty` only when it is
still `WithCircle` (the guard keeps the just-occupied destination
`NotEmpty`), then despawn the marker. -/
def reset_neighbors (w : World) (ent : Entity) : Option World :=
  match w.transform ent with
  | none => none
  | some tile_pos =>
    match w.storage.get tile_pos with
    | none => none
    | some neighbor =>
      match w.tileState neighbor with
      | none => none
      | some neigh_state =>
        let w1 :=
          if neigh_state.tile_type = Tile.WithCircle then
            w.setTileState neighbor { neigh_state with tile_type := Tile.Empty }
          else w
        some (w1.despawn ent)

/-- The cleanup loop of `move_piece` (src/src/piece.rs lines 245-256):
run `reset_neighbors` on every entity of the `HighLight` query. -/
def reset_loop : List Entity → World → Option World
  | [], w => some w
  | ent :: rest, w => (reset_neighbors w ent).bind (reset_loop rest)

/-- The system `move_piece` for one `JustDeselected(s)` event (src/src/piece.rs lines
183-260).  `selected` is the content of the `(Changed<Selection>,
With<HighLight>)` query: the circle markers whose selection state just
changed.  After the commit loop, every highlight marker is cleaned up. -/
def move_piece (w : World) (s : Entity) (selected : List Entity) : Option World :=
  (move_loop s selected w).bind (fun w1 => reset_loop w1.highlights w1)

/-- Decidable well-formedness of one marker entity, as needed for the
`unwrap`s of `reset_neighbors` not to panic. -/
def resetWfAt (w : World) (ent : Entity) : Bool :=
  match w.transform ent with
  | none => false
  | some tp =>
    match w.storage.get tp with
    | none => false
    | some te => (w.tileState te).isSome

/-- Decidable test: the tile at `p` currently carries `WithCircle`. -/
def hasCircle (w : World) (p : TilePos) : Bool :=
  match tileAt w p with
  | none => false
  | some st => decide (st.tile_type = Tile.WithCircle)

/-! ### Sliding move generation (dispatch in src/src/piece.rs; the walk
itself lives in the `movements` module, which is missing from the
snapshot and is modelled from the spec) -/

/-- bevy_ecs_tilemap's `SquareDirection` (the variants used by
src/src/piece.rs). -/
inductive SquareDirection
  | North
  | South
  | East
  | West
  | NorthEast
  | NorthWest
  | SouthEast
  | SouthWest
deriving DecidableEq, Repr

/-- Unit offset of a direction (north is +y, east is +x). -/
def SquareDirection.offset : SquareDirection → Int × Int
  | .North => (0, 1)
  | .South => (0, -1)
  | .East => (1, 0)
  | .West => (-1, 0)
  | .NorthEast => (1, 1)
  | .NorthWest => (-1, 1)
  | .SouthEast => (1, -1)
  | .SouthWest => (-1, -1)

/-- The square `j` steps from `pos` in direction `d`, `none` once the ray
leaves the board. -/
def rayPoint (pos : TilePos) (d : SquareDirection) : Nat → Option TilePos
  | 0 => some pos
  | j + 1 => (rayPoint pos d j).bind (fun q => checkedOffset q d.offset)

/-- Modelled from the spec: the per-direction walk of
`movements::sequencial_pieces` (the `movements` module is not in the
snapshot).  Spec section 4.2: from the origin walk one square at a time;
off-board stops the direction; an Empty square is added and the walk
continues; a square occupied by the opposing team is added and stops; a
square occupied by the same team stops without being added.  `occ` gives
the occupying team of a square (`none` = Empty); the fuel bounds the walk
(7 steps suffice on an 8x8 board; callers pass 8). -/
def walkRay (occ : TilePos → Option Team) (team : Team) (pos : TilePos)
    (d : SquareDirection) : Nat → List TilePos
  | 0 => []
  | fuel + 1 =>
    match checkedOffset pos d.offset with
    | none => []
    | some q =>
      match occ q with
      | none => q :: walkRay occ team q d fuel
      | some t => if t = team then [] else [q]

/-- Modelled from the spec: `movements::sequencial_pieces` walks every
direction of the list handed over by `get_piece_movements` and collects
the destinations. -/
def sequencial_pieces (occ : TilePos → Option Team) (team : Team)
    (pos : TilePos) (dirs : List SquareDirection) : List TilePos :=
  dirs.flatMap (fun d => walkRay occ team pos d 8)

/-- Rook direction list (src/src/piece.rs lines 75-80). -/
def rock_directions : List SquareDirection :=
  [.North, .South, .West, .East]

/-- Bishop direction list (src/src/piece.rs lines 106-111). -/
def bishop_directions : List SquareDirection :=
  [.NorthWest, .NorthEast, .SouthWest, .SouthEast]

/-- Queen direction list (src/src/piece.rs lines 127-136). -/
def queen_directions : List SquareDirection :=
  [.North, .South, .West, .East, .NorthWest, .NorthEast, .SouthWest, .SouthEast]

/-- The sliding-piece dispatch of `get_piece_movements` (src/src/piece.rs
lines 73-175): each sliding piece hands its direction list to
`sequencial_pieces`.  The non-sliding pieces dispatch to the knight, king
and pawn movement functions of the missing `movements` module and are not
modelled here (`none`). -/
def get_piece_movements (occ : TilePos → Option Team) (team : Team)
    (pos : TilePos) : Piece → Option (List TilePos)
  | Piece.Rock => some (sequencial_pieces occ team pos rock_directions)
  | Piece.Bishop => some (sequencial_pieces occ team pos bishop_directions)
  | Piece.Queen => some (sequencial_pieces occ team pos queen_directions)
  | _ => none

/-- Decidable test: all squares strictly between the origin and distance
`k` on the ray are Empty (the walk can reach distance `k`). -/
def ray_clear_before (occ : TilePos → Option Team) (pos : TilePos)
    (d : SquareDirection) (k : Nat) : Bool :=
  (List.range k).all (fun i =>
    i == 0 ||
      match rayPoint pos d i with
      | some r => (occ r).isNone
      | none => false)

/-! ### Board setup (src/src/board.rs) -/

/-- The helper `spawn_piece` as implemented in src/src/king.rs lines 66-111: spawn a
fresh piece entity with its components at the tile's center, then mark the
tile `NotEmpty` and record the piece entity on it.  The rook, knight,
bishop, queen and pawn modules referenced by board.rs are missing from the
snapshot; modelled from the spec and the king module, they differ only in
the piece kind they attach.  A missing tile silently skips the spawn
(`if let Some(tile_entity)`); a missing `TileState` models the `unwrap`
panic. -/
def spawn_piece (w : World) (fresh : Entity) (kind : Piece) (team : Team)
    (pos : TilePos) : Option (World × Entity) :=
  match w.storage.get pos with
  | none => some (w, fresh)
  | some tile_entity =>
    match w.tileState tile_entity with
    | none => none
    | some tile_state =>
      let w1 := { w with
        pieceKind := fun e => if e = fresh then some kind else w.pieceKind e,
        pieceTeam := fun e => if e = fresh then some team else w.pieceTeam e,
        transform := fun e => if e = fresh then some pos else w.transform e }
      some
        (w1.setTileState tile_entity
          { tile_state with tile_type := Tile.NotEmpty, piece_ent := some fresh },
         fresh + 1)

/-- The world after `BoardPlugin::tilemap_builder` (src/src/board.rs lines
39-91): 64 tile entities, every tile Empty, no pieces.  Tile (x, y) is
entity `x * 8 + y` (the builder loops x outermost); entity numbering is
opaque, only distinctness matters. -/
def initialWorld : World :=
  { storage := ⟨fun p => some (p.x * 8 + p.y)⟩,
    tileState := fun e =>
      if e < 64 then some { tile_type := Tile.Empty, piece_ent := none } else none,
    transform := fun _ => none,
    pieceKind := fun _ => none,
    pieceTeam := fun _ => none,
    highlights := [] }

/-- The spawn calls of `BoardPlugin::setup_pieces` (src/src/board.rs lines
94-351), in source order. -/
def initialPlacements : List (Piece × Team × TilePos) :=
  [(Piece.Rock, Team.Black, ⟨0, 7⟩), (Piece.Rock, Team.Black, ⟨7, 7⟩),
   (Piece.Knight, Team.Black, ⟨1, 7⟩), (Piece.Knight, Team.Black, ⟨6, 7⟩),
   (Piece.Bishop, Team.Black, ⟨2, 7⟩), (Piece.Bishop, Team.Black, ⟨5, 7⟩),
   (Piece.Queen, Team.Black, ⟨3, 7⟩), (Piece.King, Team.Black, ⟨4, 7⟩)]
  ++ (List.range 8).map (fun x => (Piece.Pawn, Team.Black, ⟨x, 6⟩))
  ++ [(Piece.Rock, Team.White, ⟨0, 0⟩), (Piece.Rock, Team.White, ⟨7, 0⟩),
      (Piece.Knight, Team.White, ⟨1, 0⟩), (Piece.Knight, Team.White, ⟨6, 0⟩),
      (Piece.Bishop, Team.White, ⟨2, 0⟩), (Piece.Bishop, Team.White, ⟨5, 0⟩),
      (Piece.Queen, Team.White, ⟨3, 0⟩), (Piece.King, Team.White, ⟨4, 0⟩)]
  ++ (List.range 8).map (fun x => (Piece.Pawn, Team.White, ⟨x, 1⟩))

/-- Run a list of spawns, threading the world and the fresh-entity
counter. -/
def spawn_all : List (Piece × Team × TilePos) → World × Entity →
    Option (World × Entity)
  | [], st => some st
  | (k, t, p) :: rest, (w, fresh) =>
    (spawn_piece w fresh k t p).bind (spawn_all rest)

/-- The startup system `BoardPlugin::setup_pieces`: the world at startup, after all 32 spawns
(piece entities start at 64, after the tile entities). -/
def setup_pieces : Option World :=
  (spawn_all initialPlacements (initialWorld, 64)).map Prod.fst

/-- The back rank of the claimed layout, by column. -/
def backRank : Nat → Option Piece
  | 0 => some Piece.Rock
  | 1 => some Piece.Knight
  | 2 => some Piece.Bishop
  | 3 => some Piece.Queen
  | 4 => some Piece.King
  | 5 => some Piece.Bishop
  | 6 => some Piece.Knight
  | 7 => some Piece.Rock
  | _ => none

/-- Spec-side initial layout (written from the claim): row 0 the White back
rank, row 1 White pawns, row 6 Black pawns, row 7 the mirrored Black back
rank, rows 2-5 empty. -/
def specInitialLayout (p : TilePos) : Option (Piece × Team) :=
  if p.y = 0 then (backRank p.x).map (fun k => (k, Team.White))
  else if p.y = 1 then some (Piece.Pawn, Team.White)
  else if p.y = 6 then some (Piece.Pawn, Team.Black)
  else if p.y = 7 then (backRank p.x).map (fun k => (k, Team.Black))
  else none

/-- Decidable check that a world's 64 squares match the claimed layout:
a square the layout occupies is `NotEmpty` and records a piece entity of
the right kind and team; any other square is `Empty` with no piece. -/
def boardMatches (w : World) : Bool :=
  allPositions.all (fun p =>
    match tileAt w p with
    | none => false
    | some st =>
      match specInitialLayout p, st.piece_ent with
      | some (k, t), some e =>
        decide (st.tile_type = Tile.NotEmpty) &&
          decide (w.pieceKind e = some k) && decide (w.pieceTeam e = some t)
      | none, none => decide (st.tile_type = Tile.Empty)
      | _, _ => false)

/-! ### Concrete worlds used by witnesses and counterexamples -/

/-- A generation-A world: the standard tile entities, one Black pawn
(entity 70) on square (4, 5), every other square empty. -/
def sampleWorld : World :=
  { storage := ⟨fun p => some (p.x * 8 + p.y)⟩,
    tileState := fun e =>
      if e = 37 then some { tile_type := Tile.NotEmpty, piece_ent := some 70 }
      else if e < 64 then some { tile_type := Tile.Empty, piece_ent := none }
      else none,
    transform := fun _ => none,
    pieceKind := fun e => if e = 70 then some Piece.Pawn else none,
    pieceTeam := fun e => if e = 70 then some Team.Black else none,
    highlights := [] }

/-- A generation-B world for a legal commit with a capture: White rock
(entity 100) stands on (0, 0) (tile `NotEmpty`), square (0, 1) carries
`WithCircle` with a circle marker (entity 101) and a Black pawn
(entity 102) standing on it. -/
def captureWorld : World :=
  { storage := ⟨fun p => some (p.x * 8 + p.y)⟩,
    tileState := fun e =>
      if e = 0 then some { tile_type := Tile.NotEmpty, piece_ent := none }
      else if e = 1 then some { tile_type := Tile.WithCircle, piece_ent := none }
      else if e < 64 then some { tile_type := Tile.Empty, piece_ent := none }
      else none,
    transform := fun e =>
      if e = 100 then some ⟨0, 0⟩
      else if e = 101 then some ⟨0, 1⟩
      else if e = 102 then some ⟨0, 1⟩
      else none,
    pieceKind := fun e =>
      if e = 100 then some Piece.Rock
      else if e = 102 then some Piece.Pawn
      else none,
    pieceTeam := fun e =>
      if e = 100 then some Team.White
      else if e = 102 then some Team.Black
      else none,
    highlights := [101] }

/-- A generation-B world for an illegal commit attempt: the circle marker
(entity 101) sits on square (0, 1) whose tile is `NotEmpty` (not
highlighted), the moving entity 100 stands on (0, 0). -/
def illegalWorld : World :=
  { storage := ⟨fun p => some (p.x * 8 + p.y)⟩,
    tileState := fun e =>
      if e = 0 then some { tile_type := Tile.NotEmpty, piece_ent := none }
      else if e = 1 then some { tile_type := Tile.NotEmpty, piece_ent := none }
      else if e < 64 then some { tile_type := Tile.Empty, piece_ent := none }
      else none,
    transform := fun e =>
      if e = 100 then some ⟨0, 0⟩
      else if e = 101 then some ⟨0, 1⟩
      else none,
    pieceKind := fun e => if e = 100 then some Piece.Rock else none,
    pieceTeam := fun e => if e = 100 then some Team.White else none,
    highlights := [101] }

/-- A concrete occupancy map for the sliding-piece witnesses: a Black piece
on (0, 4), a White piece on (3, 3). -/
def sampleOcc : TilePos → Option Team := fun p =>
  if p.x = 0 ∧ p.y = 4 then some Team.Black
  else if p.x = 3 ∧ p.y = 3 then some Team.White
  else none

theorem is_on_board_iff {p : TilePos} : is_on_board p = true ↔ p.x < 8 ∧ p.y < 8 := by
  simp [is_on_board]

theorem mem_allPositions {p : TilePos} : p ∈ allPositions ↔ is_on_board p = true := by
  cases p with
  | mk px py =>
    simp only [allPositions, List.mem_flatMap, List.mem_range, List.mem_map,
      is_on_board_iff]
    constructor
    · rintro ⟨x, hx, y, hy, h⟩
      cases h
      exact ⟨hx, hy⟩
    · rintro ⟨hx, hy⟩
      exact ⟨px, hx, py, hy, rfl⟩

theorem checkedOffset_eq_some {p q : TilePos} {off : Int × Int} :
    checkedOffset p off = some q ↔
      (q.x : Int) = p.x + off.1 ∧ (q.y : Int) = p.y + off.2 ∧ is_on_board q = true := by
  cases q with
  | mk qx qy =>
    simp only [checkedOffset, is_on_board_iff]
    split
    case isTrue h =>
      simp only [Option.some.injEq, TilePos.mk.injEq]
      constructor
      · rintro ⟨rfl, rfl⟩
        refine ⟨by omega, by omega, by omega⟩
      · rintro ⟨h1, h2, h3, h4⟩
        constructor <;> omega
    case isFalse h =>
      constructor
      · intro h'
        cases h'
      · rintro ⟨h1, h2, h3, h4⟩
        exfalso
        omega

theorem inKingNeighborhood_iff {o p : TilePos} :
    inKingNeighborhood o p = true ↔
      is_on_board p = true ∧ ((p.x : Int) - o.x).natAbs ≤ 1 ∧
        ((p.y : Int) - o.y).natAbs ≤ 1 ∧ ¬(p.x = o.x ∧ p.y = o.y) := by
  simp only [inKingNeighborhood, Bool.and_eq_true, Bool.not_eq_true',
    Bool.and_eq_false_iff, decide_eq_true_eq, decide_eq_false_iff_not, and_assoc]
  tauto

theorem mem_neighbors_iff {o p : TilePos} :
    p ∈ getSquareNeighboringPositions o ↔ inKingNeighborhood o p = true := by
  rw [inKingNeighborhood_iff]
  simp only [getSquareNeighboringPositions, List.mem_filterMap, neighbor_offsets,
    List.mem_cons, List.not_mem_nil, or_false]
  constructor
  · rintro ⟨off, hmem, hoff⟩
    rw [checkedOffset_eq_some] at hoff
    obtain ⟨hx, hy, hb⟩ := hoff
    refine ⟨hb, ?_, ?_, ?_⟩ <;>
      (rcases hmem with rfl | rfl | rfl | rfl | rfl | rfl | rfl | rfl <;> simp at hx hy ⊢ <;> omega)
  · rintro ⟨hb, hax, hay, hne⟩
    have hx : (p.x : Int) - o.x = -1 ∨ (p.x : Int) - o.x = 0 ∨ (p.x : Int) - o.x = 1 := by omega
    have hy : (p.y : Int) - o.y = -1 ∨ (p.y : Int) - o.y = 0 ∨ (p.y : Int) - o.y = 1 := by omega
    have hne' : ¬((p.x : Int) - o.x = 0 ∧ (p.y : Int) - o.y = 0) := by omega
    rcases hx with hx | hx | hx <;> rcases hy with hy | hy | hy
    · exact ⟨(-1, -1), by simp, checkedOffset_eq_some.mpr ⟨by omega, by omega, hb⟩⟩
    · exact ⟨(-1, 0), by simp, checkedOffset_eq_some.mpr ⟨by omega, by omega, hb⟩⟩
    · exact ⟨(-1, 1), by simp, checkedOffset_eq_some.mpr ⟨by omega, by omega, hb⟩⟩
    · exact ⟨(0, -1), by simp, checkedOffset_eq_some.mpr ⟨by omega, by omega, hb⟩⟩
    · exact absurd ⟨hx, hy⟩ hne'
    · exact ⟨(0, 1), by simp, checkedOffset_eq_some.mpr ⟨by omega, by omega, hb⟩⟩
    · exact ⟨(1, -1), by simp, checkedOffset_eq_some.mpr ⟨by omega, by omega, hb⟩⟩
    · exact ⟨(1, 0), by simp, checkedOffset_eq_some.mpr ⟨by omega, by omega, hb⟩⟩
    · exact ⟨(1, 1), by simp, checkedOffset_eq_some.mpr ⟨by omega, by omega, hb⟩⟩

theorem neighbors_nodup (o : TilePos) : (getSquareNeighboringPositions o).Nodup := by
  refine List.Nodup.filterMap ?_ (by decide)
  intro a a' b ha ha'
  rw [Option.mem_def, checkedOffset_eq_some] at ha ha'
  obtain ⟨hx, hy, _⟩ := ha
  obtain ⟨hx', hy', _⟩ := ha'
  have : a.1 = a'.1 := by omega
  have : a.2 = a'.2 := by omega
  exact Prod.ext ‹a.1 = a'.1› ‹a.2 = a'.2›

theorem neighbors_on_board {o p : TilePos} (h : p ∈ getSquareNeighboringPositions o) :
    is_on_board p = true := by
  simp only [getSquareNeighboringPositions, List.mem_filterMap] at h
  obtain ⟨off, _, hoff⟩ := h
  exact (checkedOffset_eq_some.mp hoff).2.2

@[simp] theorem setTileState_storage (w : World) (e : Entity) (st : TileState) :
    (w.setTileState e st).storage = w.storage := rfl

@[simp] theorem setTileState_transform (w : World) (e : Entity) (st : TileState) :
    (w.setTileState e st).transform = w.transform := rfl

@[simp] theorem setTileState_pieceKind (w : World) (e : Entity) (st : TileState) :
    (w.setTileState e st).pieceKind = w.pieceKind := rfl

@[simp] theorem setTileState_pieceTeam (w : World) (e : Entity) (st : TileState) :
    (w.setTileState e st).pieceTeam = w.pieceTeam := rfl

@[simp] theorem setTileState_highlights (w : World) (e : Entity) (st : TileState) :
    (w.setTileState e st).highlights = w.highlights := rfl

theorem setTileState_tileState (w : World) (e : Entity) (st : TileState) (x : Entity) :
    (w.setTileState e st).tileState x = if x = e then some st else w.tileState x := rfl

theorem tileAt_setTileState_ne {w : World} {ne : Entity} {ts' : TileState} {q : TilePos}
    (h : w.storage.get q ≠ some ne) :
    tileAt (w.setTileState ne ts') q = tileAt w q := by
  unfold tileAt
  rw [setTileState_storage]
  rcases hq : w.storage.get q with _ | e
  · rfl
  · rw [hq] at h
    have he : e ≠ ne := fun hc => h (by rw [hc])
    simp [Option.bind, setTileState_tileState, he]

theorem wantsHighlight_eq_of {w1 w : World} {team : Team} {q : TilePos}
    (h1 : tileAt w1 q = tileAt w q) (h2 : w1.pieceTeam = w.pieceTeam) :
    wantsHighlight w1 team q = wantsHighlight w team q := by
  unfold wantsHighlight
  rw [h1, h2]

theorem kingWfAt_iff {w : World} {p : TilePos} :
    kingWfAt w p = true ↔
      ∃ e st, w.storage.get p = some e ∧ w.tileState e = some st ∧
        (∀ pe, st.piece_ent = some pe → (w.pieceTeam pe).isSome = true) := by
  unfold kingWfAt
  rcases h1 : w.storage.get p with _ | e
  · simp
  · rcases h2 : w.tileState e with _ | st
    · simp [h2]
    · rcases h3 : st.piece_ent with _ | pe
      · simp [h2, h3]
      · rcases h4 : w.pieceTeam pe with _ | t <;> simp [h2, h3, h4]

theorem wantsHighlight_iff {w : World} {team : Team} {p : TilePos} :
    wantsHighlight w team p = true ↔
      specEmptySquare w p ∨ specOpposingSquare w p team := by
  unfold wantsHighlight specEmptySquare specOpposingSquare
  rcases h1 : tileAt w p with _ | st
  · simp
  · by_cases h2 : st.tile_type = Tile.Empty
    · simp [h2]
    · rcases h3 : st.piece_ent with _ | e
      · simp [h2, h3]
      · rcases h4 : w.pieceTeam e with _ | t
        · simp [h2, h3, h4]
        · simp [h2, h3, h4]

theorem kingWfAt_setTileType {w : World} {ne : Entity} {ts : TileState} (ty : Tile)
    (hst : w.tileState ne = some ts)
    {q : TilePos} (h : kingWfAt w q = true) :
    kingWfAt (w.setTileState ne { ts with tile_type := ty }) q = true := by
  rw [kingWfAt_iff] at h ⊢
  obtain ⟨e, st, h1, h2, h3⟩ := h
  by_cases he : e = ne
  · subst he
    refine ⟨e, { ts with tile_type := ty }, by rw [setTileState_storage]; exact h1,
      by simp [setTileState_tileState], ?_⟩
    intro pe hpe'
    rw [h2] at hst
    cases hst
    exact h3 pe hpe'
  · exact ⟨e, st, by rw [setTileState_storage]; exact h1,
      by rw [setTileState_tileState, if_neg he]; exact h2, h3⟩

theorem king_go_spec (self : King) : ∀ (l : List TilePos) (w : World) (acc : List TilePos),
    (∀ p ∈ l, kingWfAt w p = true) →
    (∀ p ∈ l, ∀ q ∈ l, w.storage.get p = w.storage.get q → p = q) →
    l.Nodup →
    ∃ w', king_go self l w acc = some (w', acc ++ l.filter (wantsHighlight w self.team)) ∧
      w'.storage = w.storage ∧ w'.transform = w.transform ∧
      w'.pieceKind = w.pieceKind ∧ w'.pieceTeam = w.pieceTeam ∧
      w'.highlights = w.highlights ∧
      (∀ e, (∀ p ∈ l, w.storage.get p ≠ some e) → w'.tileState e = w.tileState e) ∧
      (∀ e, (w'.tileState e).map TileState.piece_ent =
        (w.tileState e).map TileState.piece_ent) ∧
      (∀ p ∈ l, wantsHighlight w self.team p = false →
        ∀ e, w.storage.get p = some e → w'.tileState e = w.tileState e) := by
  intro l
  induction l with
  | nil =>
    intro w acc _ _ _
    exact ⟨w, by simp [king_go], rfl, rfl, rfl, rfl, rfl,
      fun _ _ => rfl, fun _ => rfl, by simp⟩
  | cons p rest ih =>
    intro w acc hwf hinj hnd
    have hpmem : p ∈ p :: rest := List.mem_cons_self _ _
    have hpnotin : p ∉ rest := (List.nodup_cons.mp hnd).1
    have hndr : rest.Nodup := (List.nodup_cons.mp hnd).2
    obtain ⟨ne, ts, hget, hst, hteam⟩ := kingWfAt_iff.mp (hwf p hpmem)
    -- entities of rest differ from ne
    have hure : ∀ q ∈ rest, w.storage.get q ≠ some ne := by
      intro q hq hc
      have := hinj q (List.mem_cons_of_mem _ hq) p hpmem (by rw [hc, hget])
      exact hpnotin (this ▸ hq)
    have htile : tileAt w p = some ts := by
      unfold tileAt
      rw [hget]
      exact hst
    by_cases hty : ts.tile_type = Tile.Empty
    -- Empty neighbor: highlighted
    · have hwp : wantsHighlight w self.team p = true := by
        simp [wantsHighlight, htile, hty]
      have hstep : king_go self (p :: rest) w acc =
          king_go self rest
            (w.setTileState ne { ts with tile_type := Tile.HighLighted }) (acc ++ [p]) := by
        simp [king_go, hget, hst, hty]
      set w1 := w.setTileState ne { ts with tile_type := Tile.HighLighted } with hw1
      have htr : ∀ q ∈ rest, tileAt w1 q = tileAt w q := by
        intro q hq
        exact tileAt_setTileState_ne (hure q hq)
      have hwtr : ∀ q ∈ rest, wantsHighlight w1 self.team q = wantsHighlight w self.team q := by
        intro q hq
        exact wantsHighlight_eq_of (htr q hq) rfl
      obtain ⟨w', hgo, hs, ht, hk, hpt, hh, hframe, hpent, hsame⟩ :=
        ih w1 (acc ++ [p])
          (fun q hq => kingWfAt_setTileType Tile.HighLighted hst
            (hwf q (List.mem_cons_of_mem _ hq)))
          (fun q hq r hr h => hinj q (List.mem_cons_of_mem _ hq) r (List.mem_cons_of_mem _ hr) h)
          hndr
      refine ⟨w', ?_, hs, ht, hk, hpt, hh, ?_, ?_, ?_⟩
      · rw [hstep, hgo, List.filter_cons, hwp]
        simp only [List.filter_congr hwtr]
        simp
      · intro e he
        have h1 : w'.tileState e = w1.tileState e :=
          hframe e (fun q hq => (he q (List.mem_cons_of_mem _ hq)))
        have hne : e ≠ ne := by
          intro hc
          exact he p hpmem (by rw [hc, hget])
        rw [h1, hw1, setTileState_tileState, if_neg hne]
      · intro e
        rw [hpent e, hw1, setTileState_tileState]
        by_cases he : e = ne
        · subst he
          rw [if_pos rfl, hst]
          rfl
        · rw [if_neg he]
      · intro q hq hwq e hqe
        rcases List.mem_cons.mp hq with rfl | hq'
        · rw [hwp] at hwq
          cases hwq
        · have h1 : w'.tileState e = w1.tileState e := by
            refine hsame q hq' ?_ e ?_
            · rw [hwtr q hq']
              exact hwq
            · rw [setTileState_storage]
              exact hqe
          have hne : e ≠ ne := by
            intro hc
            exact hure q hq' (by rw [hqe, hc])
          rw [h1, hw1, setTileState_tileState, if_neg hne]
    -- occupied neighbor
    · rcases hpe : ts.piece_ent with _ | pe
      -- occupied, no recorded piece entity: skipped
      · have hwp : wantsHighlight w self.team p = false := by
          simp [wantsHighlight, htile, hty, hpe]
        have hstep : king_go self (p :: rest) w acc = king_go self rest w acc := by
          simp [king_go, hget, hst, hty, hpe]
        obtain ⟨w', hgo, hs, ht, hk, hpt, hh, hframe, hpent, hsame⟩ :=
          ih w acc
            (fun q hq => hwf q (List.mem_cons_of_mem _ hq))
            (fun q hq r hr h => hinj q (List.mem_cons_of_mem _ hq) r (List.mem_cons_of_mem _ hr) h)
            hndr
        refine ⟨w', ?_, hs, ht, hk, hpt, hh, ?_, hpent, ?_⟩
        · rw [hstep, hgo, List.filter_cons, hwp]
          simp
        · intro e he
          exact hframe e (fun q hq => he q (List.mem_cons_of_mem _ hq))
        · intro q hq hwq e hqe
          rcases List.mem_cons.mp hq with rfl | hq'
          · have he : e = ne := by
              rw [hget] at hqe
              exact (Option.some.inj hqe).symm
            subst he
            exact hframe e hure
          · exact hsame q hq' hwq e hqe
      -- occupied by a piece
      · have hsome := hteam pe hpe
        rcases hpt' : w.pieceTeam pe with _ | t
        · rw [hpt'] at hsome
          cases hsome
        · by_cases hto : t = self.team
          -- same team: skipped
          · have hwp : wantsHighlight w self.team p = false := by
              simp [wantsHighlight, htile, hty, hpe, hpt', hto]
            have hstep : king_go self (p :: rest) w acc = king_go self rest w acc := by
              simp [king_go, hget, hst, hty, hpe, hpt', hto]
            obtain ⟨w', hgo, hs, ht, hk, hpt2, hh, hframe, hpent, hsame⟩ :=
              ih w acc
                (fun q hq => hwf q (List.mem_cons_of_mem _ hq))
                (fun q hq r hr h => hinj q (List.mem_cons_of_mem _ hq) r (List.mem_cons_of_mem _ hr) h)
                hndr
            refine ⟨w', ?_, hs, ht, hk, hpt2, hh, ?_, hpent, ?_⟩
            · rw [hstep, hgo, List.filter_cons, hwp]
              simp
            · intro e he
              exact hframe e (fun q hq => he q (List.mem_cons_of_mem _ hq))
            · intro q hq hwq e hqe
              rcases List.mem_cons.mp hq with rfl | hq'
              · have he : e = ne := by
                  rw [hget] at hqe
                  exact (Option.some.inj hqe).symm
                subst he
                exact hframe e hure
              · exact hsame q hq' hwq e hqe
          -- opposing team: highlighted
          · have hwp : wantsHighlight w self.team p = true := by
              simp [wantsHighlight, htile, hty, hpe, hpt', hto]
            have hstep : king_go self (p :: rest) w acc =
                king_go self rest
                  (w.setTileState ne { ts with tile_type := Tile.HighLighted }) (acc ++ [p]) := by
              simp [king_go, hget, hst, hty, hpe, hpt', hto]
            set w1 := w.setTileState ne { ts with tile_type := Tile.HighLighted } with hw1
            have htr : ∀ q ∈ rest, tileAt w1 q = tileAt w q := by
              intro q hq
              exact tileAt_setTileState_ne (hure q hq)
            have hwtr : ∀ q ∈ rest, wantsHighlight w1 self.team q = wantsHighlight w self.team q := by
              intro q hq
              exact wantsHighlight_eq_of (htr q hq) rfl
            obtain ⟨w', hgo, hs, ht, hk, hpt2, hh, hframe, hpent, hsame⟩ :=
              ih w1 (acc ++ [p])
                (fun q hq => kingWfAt_setTileType Tile.HighLighted hst
            (hwf q (List.mem_cons_of_mem _ hq)))
                (fun q hq r hr h => hinj q (List.mem_cons_of_mem _ hq) r (List.mem_cons_of_mem _ hr) h)
                hndr
            refine ⟨w', ?_, hs, ht, hk, hpt2, hh, ?_, ?_, ?_⟩
            · rw [hstep, hgo, List.filter_cons, hwp]
              simp only [List.filter_congr hwtr]
              simp
            · intro e he
              have h1 : w'.tileState e = w1.tileState e :=
                hframe e (fun q hq => (he q (List.mem_cons_of_mem _ hq)))
              have hne : e ≠ ne := by
                intro hc
                exact he p hpmem (by rw [hc, hget])
              rw [h1, hw1, setTileState_tileState, if_neg hne]
            · intro e
              rw [hpent e, hw1, setTileState_tileState]
              by_cases he : e = ne
              · subst he
                rw [if_pos rfl, hst]
                rfl
              · rw [if_neg he]
            · intro q hq hwq e hqe
              rcases List.mem_cons.mp hq with rfl | hq'
              · rw [hwp] at hwq
                cases hwq
              · have h1 : w'.tileState e = w1.tileState e := by
                  refine hsame q hq' ?_ e ?_
                  · rw [hwtr q hq']
                    exact hwq
                  · rw [setTileState_storage]
                    exact hqe
                have hne : e ≠ ne := by
                  intro hc
                  exact hure q hq' (by rw [hqe, hc])
                rw [h1, hw1, setTileState_tileState, if_neg hne]

theorem king_go_isSome (self : King) : ∀ (l : List TilePos) (w : World) (acc : List TilePos),
    (∀ p ∈ l, kingWfAt w p = true) → (king_go self l w acc).isSome = true := by
  intro l
  induction l with
  | nil =>
    intro w acc _
    simp [king_go]
  | cons p rest ih =>
    intro w acc hwf
    obtain ⟨ne, ts, hget, hst, hteam⟩ := kingWfAt_iff.mp (hwf p (List.mem_cons_self _ _))
    have hwfr : ∀ q ∈ rest, kingWfAt w q = true :=
      fun q hq => hwf q (List.mem_cons_of_mem _ hq)
    by_cases hty : ts.tile_type = Tile.Empty
    · have hstep : king_go self (p :: rest) w acc =
          king_go self rest
            (w.setTileState ne { ts with tile_type := Tile.HighLighted }) (acc ++ [p]) := by
        simp [king_go, hget, hst, hty]
      rw [hstep]
      exact ih _ _ (fun q hq => kingWfAt_setTileType Tile.HighLighted hst (hwfr q hq))
    · rcases hpe : ts.piece_ent with _ | pe
      · have hstep : king_go self (p :: rest) w acc = king_go self rest w acc := by
          simp [king_go, hget, hst, hty, hpe]
        rw [hstep]
        exact ih _ _ hwfr
      · have hsome := hteam pe hpe
        rcases hpt' : w.pieceTeam pe with _ | t
        · rw [hpt'] at hsome
          cases hsome
        · by_cases hto : t = self.team
          · have hstep : king_go self (p :: rest) w acc = king_go self rest w acc := by
              simp [king_go, hget, hst, hty, hpe, hpt', hto]
            rw [hstep]
            exact ih _ _ hwfr
          · have hstep : king_go self (p :: rest) w acc =
                king_go self rest
                  (w.setTileState ne { ts with tile_type := Tile.HighLighted }) (acc ++ [p]) := by
              simp [king_go, hget, hst, hty, hpe, hpt', hto]
            rw [hstep]
            exact ih _ _ (fun q hq => kingWfAt_setTileType Tile.HighLighted hst (hwfr q hq))

theorem sameTeam_not_wants {w : World} {team : Team} {p : TilePos}
    (h : specSameTeamSquare w p team) : wantsHighlight w team p = false := by
  rw [Bool.eq_false_iff]
  intro hw
  obtain ⟨st, e, htile, hty, hpe, hpt⟩ := h
  rcases wantsHighlight_iff.mp hw with he | ho
  · obtain ⟨st', htile', hty'⟩ := he
    rw [htile] at htile'
    cases htile'
    exact hty hty'
  · obtain ⟨st', e', t', htile', _, hpe', hpt', hne⟩ := ho
    rw [htile] at htile'
    cases htile'
    rw [hpe] at hpe'
    cases hpe'
    rw [hpt] at hpt'
    cases hpt'
    exact hne rfl

theorem tileAt_eq_of {w' w : World} (hs : w'.storage = w.storage) {p : TilePos}
    (h : ∀ e, w.storage.get p = some e → w'.tileState e = w.tileState e) :
    tileAt w' p = tileAt w p := by
  unfold tileAt
  rw [hs]
  rcases hq : w.storage.get p with _ | e
  · rfl
  · exact h e hq

/-- Claim C1: for every board state, origin square and king team, the set of
squares King::movement highlights equals exactly the on-board squares of the
3x3 neighborhood of the origin (center excluded) that are either Empty or
occupied by a piece of the opposing team; a same-team neighbor is never
highlighted. -/
theorem king_movement_highlight_set (k : King) (w : World) (pos : TilePos)
    (hwf : ∀ p ∈ getSquareNeighboringPositions pos, kingWfAt w p = true)
    (hinj : ∀ p ∈ allPositions, ∀ q ∈ allPositions,
      w.storage.get p = w.storage.get q → p = q) :
    ∃ w' hs, King.movement k w pos = some (w', hs) ∧
      ∀ p, p ∈ hs ↔ inKingNeighborhood pos p = true ∧
        (specEmptySquare w p ∨ specOpposingSquare w p k.team) := by
  have hinj' : ∀ p ∈ getSquareNeighboringPositions pos,
      ∀ q ∈ getSquareNeighboringPositions pos,
      w.storage.get p = w.storage.get q → p = q := fun p hp q hq =>
    hinj p (mem_allPositions.mpr (neighbors_on_board hp))
      q (mem_allPositions.mpr (neighbors_on_board hq))
  obtain ⟨w', hgo, _⟩ :=
    king_go_spec k (getSquareNeighboringPositions pos) w [] hwf hinj' (neighbors_nodup pos)
  refine ⟨w', _, by unfold King.movement; rw [hgo], ?_⟩
  intro p
  rw [List.nil_append, List.mem_filter, mem_neighbors_iff, wantsHighlight_iff]

/-- Claim C10: King::movement only ever changes the tile_type of the
origin's neighboring tiles: the piece_ent of every tile is unchanged, every
tile outside the neighbor set is entirely unchanged, a same-team-occupied
neighbor keeps its tile state, and no other component of the world moves. -/
theorem king_movement_frame (k : King) (w : World) (pos : TilePos)
    (hwf : ∀ p ∈ getSquareNeighboringPositions pos, kingWfAt w p = true)
    (hinj : ∀ p ∈ allPositions, ∀ q ∈ allPositions,
      w.storage.get p = w.storage.get q → p = q) :
    ∃ w' hs, King.movement k w pos = some (w', hs) ∧
      w'.storage = w.storage ∧ w'.transform = w.transform ∧
      w'.pieceKind = w.pieceKind ∧ w'.pieceTeam = w.pieceTeam ∧
      w'.highlights = w.highlights ∧
      (∀ e, (w'.tileState e).map TileState.piece_ent =
        (w.tileState e).map TileState.piece_ent) ∧
      (∀ p, p ∉ getSquareNeighboringPositions pos → tileAt w' p = tileAt w p) ∧
      (∀ p ∈ getSquareNeighboringPositions pos,
        specSameTeamSquare w p k.team → tileAt w' p = tileAt w p) := by
  have hinj' : ∀ p ∈ getSquareNeighboringPositions pos,
      ∀ q ∈ getSquareNeighboringPositions pos,
      w.storage.get p = w.storage.get q → p = q := fun p hp q hq =>
    hinj p (mem_allPositions.mpr (neighbors_on_board hp))
      q (mem_allPositions.mpr (neighbors_on_board hq))
  obtain ⟨w', hgo, hs, ht, hk, hpt, hh, hframe, hpent, hsame⟩ :=
    king_go_spec k (getSquareNeighboringPositions pos) w [] hwf hinj' (neighbors_nodup pos)
  refine ⟨w', _, by unfold King.movement; rw [hgo],
    hs, ht, hk, hpt, hh, hpent, ?_, ?_⟩
  · intro p hp
    refine tileAt_eq_of hs ?_
    intro e hq
    have hon : is_on_board p = true := by
      by_contra hb
      rw [TileStorage.get, if_neg] at hq
      · cases hq
      · exact fun hc => hb hc
    refine hframe e ?_
    intro q hqn hc
    have := hinj q (mem_allPositions.mpr (neighbors_on_board hqn))
      p (mem_allPositions.mpr hon) (by rw [hc, hq])
    exact hp (this ▸ hqn)
  · intro p hp hst
    have hwfalse := sameTeam_not_wants hst
    refine tileAt_eq_of hs ?_
    intro e hq
    exact hsame p hp hwfalse e hq

theorem walkRay_on_board (occ : TilePos → Option Team) (team : Team)
    (d : SquareDirection) : ∀ (fuel : Nat) (pos q : TilePos),
    q ∈ walkRay occ team pos d fuel → is_on_board q = true := by
  intro fuel
  induction fuel with
  | zero =>
    intro pos q h
    cases h
  | succ fuel ih =>
    intro pos q h
    unfold walkRay at h
    rcases hc : checkedOffset pos d.offset with _ | r
    · simp [hc] at h
    · have hron : is_on_board r = true := (checkedOffset_eq_some.mp hc).2.2
      rcases ho : occ r with _ | t
      · simp [hc, ho] at h
        rcases h with rfl | h'
        · exact hron
        · exact ih r q h'
      · by_cases ht : t = team
        · simp [hc, ho, ht] at h
        · simp [hc, ho, ht] at h
          subst h
          exact hron

/-- Claim C8: out-of-range store accesses return an empty result instead of
crashing; the neighbor and ray computations of move generation only produce
on-board squares (they bounds-check before dereferencing the store), and
King::movement never panics on a well-formed board. -/
theorem bounds_safety :
    (∀ (s : TileStorage) (p : TilePos), is_on_board p = false → s.get p = none) ∧
    (∀ (k : King) (w : World) (pos : TilePos),
      (∀ p ∈ getSquareNeighboringPositions pos, kingWfAt w p = true) →
      (King.movement k w pos).isSome = true) ∧
    (∀ (occ : TilePos → Option Team) (team : Team) (pos : TilePos)
      (d : SquareDirection) (q : TilePos),
      q ∈ walkRay occ team pos d 8 → is_on_board q = true) ∧
    (∀ (o p : TilePos), p ∈ getSquareNeighboringPositions o → is_on_board p = true) := by
  refine ⟨?_, ?_, ?_, ?_⟩
  · intro s p h
    rw [TileStorage.get, if_neg]
    rw [h]
    intro hc
    cases hc
  · intro k w pos hwf
    exact king_go_isSome k _ w [] hwf
  · intro occ team pos d q h
    exact walkRay_on_board occ team d 8 pos q h
  · intro o p h
    exact neighbors_on_board h

set_option maxRecDepth 40000 in
/-- Witness for bounds_safety at concrete inputs. -/
theorem bounds_safety_witness :
    (TileStorage.mk (fun _ => some 0)).get ⟨8, 0⟩ = none ∧
    (King.movement ⟨Team.White⟩ sampleWorld ⟨4, 4⟩).isSome = true ∧
    is_on_board ⟨0, 1⟩ = true ∧
    is_on_board ⟨5, 5⟩ = true :=
  ⟨bounds_safety.1 (TileStorage.mk (fun _ => some 0)) ⟨8, 0⟩ (by decide),
   bounds_safety.2.1 ⟨Team.White⟩ sampleWorld ⟨4, 4⟩ (by decide),
   bounds_safety.2.2.1 (fun _ => none) Team.White ⟨0, 0⟩ SquareDirection.North ⟨0, 1⟩
     (by decide),
   bounds_safety.2.2.2 ⟨4, 4⟩ ⟨5, 5⟩ (by decide)⟩

set_option maxRecDepth 40000 in
/-- Witness for king_movement_highlight_set: a White king at (4, 4) on
sampleWorld (which has a Black pawn on (4, 5)). -/
theorem king_movement_highlight_set_witness :
    ∃ w' hs, King.movement ⟨Team.White⟩ sampleWorld ⟨4, 4⟩ = some (w', hs) ∧
      ∀ p, p ∈ hs ↔ inKingNeighborhood ⟨4, 4⟩ p = true ∧
        (specEmptySquare sampleWorld p ∨ specOpposingSquare sampleWorld p Team.White) :=
  king_movement_highlight_set ⟨Team.White⟩ sampleWorld ⟨4, 4⟩ (by decide) (by decide)

set_option maxRecDepth 40000 in
/-- Witness for king_movement_frame: a Black king at (4, 4) on sampleWorld
(the Black pawn on (4, 5) is a same-team neighbor). -/
theorem king_movement_frame_witness :
    ∃ w' hs, King.movement ⟨Team.Black⟩ sampleWorld ⟨4, 4⟩ = some (w', hs) ∧
      w'.storage = sampleWorld.storage ∧ w'.transform = sampleWorld.transform ∧
      w'.pieceKind = sampleWorld.pieceKind ∧ w'.pieceTeam = sampleWorld.pieceTeam ∧
      w'.highlights = sampleWorld.highlights ∧
      (∀ e, (w'.tileState e).map TileState.piece_ent =
        (sampleWorld.tileState e).map TileState.piece_ent) ∧
      (∀ p, p ∉ getSquareNeighboringPositions ⟨4, 4⟩ → tileAt w' p = tileAt sampleWorld p) ∧
      (∀ p ∈ getSquareNeighboringPositions ⟨4, 4⟩,
        specSameTeamSquare sampleWorld p Team.Black → tileAt w' p = tileAt sampleWorld p) :=
  king_movement_frame ⟨Team.Black⟩ sampleWorld ⟨4, 4⟩ (by decide) (by decide)

@[simp] theorem despawn_storage (w : World) (e : Entity) : (w.despawn e).storage = w.storage := rfl

@[simp] theorem despawn_tileState (w : World) (e : Entity) :
    (w.despawn e).tileState = w.tileState := rfl

@[simp] theorem despawn_pieceKind (w : World) (e : Entity) :
    (w.despawn e).pieceKind = w.pieceKind := rfl

@[simp] theorem despawn_pieceTeam (w : World) (e : Entity) :
    (w.despawn e).pieceTeam = w.pieceTeam := rfl

theorem despawn_transform (w : World) (e x : Entity) :
    (w.despawn e).transform x = if x = e then none else w.transform x := rfl

theorem despawn_highlights (w : World) (e : Entity) :
    (w.despawn e).highlights = w.highlights.filter (fun x => x != e) := rfl

@[simp] theorem setTransform_storage (w : World) (e : Entity) (p : TilePos) :
    (w.setTransform e p).storage = w.storage := rfl

@[simp] theorem setTransform_tileState (w : World) (e : Entity) (p : TilePos) :
    (w.setTransform e p).tileState = w.tileState := rfl

@[simp] theorem setTransform_pieceKind (w : World) (e : Entity) (p : TilePos) :
    (w.setTransform e p).pieceKind = w.pieceKind := rfl

@[simp] theorem setTransform_pieceTeam (w : World) (e : Entity) (p : TilePos) :
    (w.setTransform e p).pieceTeam = w.pieceTeam := rfl

@[simp] theorem setTransform_highlights (w : World) (e : Entity) (p : TilePos) :
    (w.setTransform e p).highlights = w.highlights := rfl

theorem setTransform_transform (w : World) (e : Entity) (p : TilePos) (x : Entity) :
    (w.setTransform e p).transform x = if x = e then some p else w.transform x := rfl

@[simp] theorem setTileState_highlights_eq (w : World) (e : Entity) (st : TileState) :
    (w.setTileState e st).highlights = w.highlights := rfl

theorem resetWfAt_iff {w : World} {e : Entity} :
    resetWfAt w e = true ↔ ∃ tp te, w.transform e = some tp ∧
      w.storage.get tp = some te ∧ (w.tileState te).isSome = true := by
  unfold resetWfAt
  rcases h1 : w.transform e with _ | tp
  · simp
  · rcases h2 : w.storage.get tp with _ | te
    · simp [h2]
    · simp [h2]

theorem reset_loop_spec : ∀ (l : List Entity) (w : World),
    (∀ e ∈ l, resetWfAt w e = true) → l.Nodup →
    ∃ w', reset_loop l w = some w' ∧
      w'.storage = w.storage ∧ w'.pieceKind = w.pieceKind ∧ w'.pieceTeam = w.pieceTeam ∧
      (∀ e, e ∈ w'.highlights ↔ e ∈ w.highlights ∧ e ∉ l) ∧
      (∀ e, e ∉ l → w'.transform e = w.transform e) ∧
      (∀ e, e ∈ l → w'.transform e = none) ∧
      (∀ te st, w.tileState te = some st → st.tile_type ≠ Tile.WithCircle →
        w'.tileState te = some st) ∧
      (∀ te st, w.tileState te = some st →
        ∃ st', w'.tileState te = some st' ∧ st'.piece_ent = st.piece_ent ∧
          (st'.tile_type = st.tile_type ∨
            (st.tile_type = Tile.WithCircle ∧ st'.tile_type = Tile.Empty))) ∧
      (∀ te, w.tileState te = none → w'.tileState te = none) ∧
      (∀ ent ∈ l, ∀ tp te, w.transform ent = some tp → w.storage.get tp = some te →
        ∃ st', w'.tileState te = some st' ∧ st'.tile_type ≠ Tile.WithCircle) := by
  intro l
  induction l with
  | nil =>
    intro w _ _
    refine ⟨w, by simp [reset_loop], rfl, rfl, rfl, by simp, fun _ _ => rfl, ?_, ?_, ?_, ?_, ?_⟩
    · intro e he
      cases he
    · intro te st h _
      exact h
    · intro te st h
      exact ⟨st, h, rfl, Or.inl rfl⟩
    · intro te h
      exact h
    · intro ent he
      cases he
  | cons ent rest ih =>
    intro w hwf hnd
    have hentmem : ent ∈ ent :: rest := List.mem_cons_self _ _
    have hentnotin : ent ∉ rest := (List.nodup_cons.mp hnd).1
    have hndr : rest.Nodup := (List.nodup_cons.mp hnd).2
    obtain ⟨tp, te, ht, hg, hsome⟩ := resetWfAt_iff.mp (hwf ent hentmem)
    rcases hstq : w.tileState te with _ | nst
    · rw [hstq] at hsome
      cases hsome
    · by_cases hty : nst.tile_type = Tile.WithCircle
      -- the marker tile is still WithCircle: reset it to Empty, despawn the marker
      · have hrn : reset_neighbors w ent =
            some ((w.setTileState te { nst with tile_type := Tile.Empty }).despawn ent) := by
          simp [reset_neighbors, ht, hg, hstq, hty]
        set wb := (w.setTileState te { nst with tile_type := Tile.Empty }).despawn ent with hwb
        have hbtr : ∀ x, x ≠ ent → wb.transform x = w.transform x := by
          intro x hx
          rw [hwb, despawn_transform, if_neg hx]
          rfl
        have hbst : ∀ x, wb.tileState x =
            if x = te then some { nst with tile_type := Tile.Empty } else w.tileState x := by
          intro x
          rw [hwb, despawn_tileState, setTileState_tileState]
        have hwf' : ∀ e ∈ rest, resetWfAt wb e = true := by
          intro e he
          obtain ⟨tp', te', ht', hg', hsome'⟩ := resetWfAt_iff.mp (hwf e (List.mem_cons_of_mem _ he))
          refine resetWfAt_iff.mpr ⟨tp', te', ?_, hg', ?_⟩
          · rw [hbtr e (fun hc => hentnotin (hc ▸ he))]
            exact ht'
          · rw [hbst te']
            by_cases hte : te' = te
            · rw [if_pos hte]
              rfl
            · rw [if_neg hte]
              exact hsome'
        obtain ⟨w', hrun, hs, hk, hpt, hhl, htro, htri, hkeep, hevol, hnone, hmark⟩ :=
          ih wb hwf' hndr
        have hloop : reset_loop (ent :: rest) w = some w' := by
          show (reset_neighbors w ent).bind (reset_loop rest) = some w'
          rw [hrn]
          exact hrun
        refine ⟨w', hloop, by rw [hs]; rfl, by rw [hk]; rfl, by rw [hpt]; rfl,
          ?_, ?_, ?_, ?_, ?_, ?_, ?_⟩
        · intro e
          rw [hhl e, hwb, despawn_highlights, setTileState_highlights_eq,
            List.mem_filter, bne_iff_ne, List.mem_cons]
          constructor
          · rintro ⟨⟨h1, h2⟩, h3⟩
            exact ⟨h1, fun hc => hc.elim (fun hc' => h2 hc') (fun hc' => h3 hc')⟩
          · rintro ⟨h1, h2⟩
            exact ⟨⟨h1, fun hc => h2 (Or.inl hc)⟩, fun hc => h2 (Or.inr hc)⟩
        · intro e he
          have he1 : e ≠ ent := fun hc => he (List.mem_cons.mpr (Or.inl hc))
          have he2 : e ∉ rest := fun hc => he (List.mem_cons.mpr (Or.inr hc))
          rw [htro e he2, hbtr e he1]
        · intro e he
          rcases List.mem_cons.mp he with rfl | he'
          · rw [htro e hentnotin, hwb, despawn_transform, if_pos rfl]
          · exact htri e he'
        · intro te' st h hnc
          have hte : te' ≠ te := by
            intro hc
            rw [hc, hstq] at h
            cases h
            exact hnc hty
          refine hkeep te' st ?_ hnc
          rw [hbst te', if_neg hte]
          exact h
        · intro te' st h
          by_cases hte : te' = te
          · subst hte
            rw [hstq] at h
            cases h
            have hb : wb.tileState te' = some { nst with tile_type := Tile.Empty } := by
              rw [hbst te', if_pos rfl]
            obtain ⟨st', hw', hpe', _⟩ := hevol te' _ hb
            refine ⟨st', hw', hpe', Or.inr ⟨hty, ?_⟩⟩
            rcases hevol te' _ hb with ⟨st'', hw'', _, hty''⟩
            rw [hw'] at hw''
            cases hw''
            rcases hty'' with h1 | h1
            · exact h1
            · exact h1.2
          · have hb : wb.tileState te' = w.tileState te' := by
              rw [hbst te', if_neg hte]
            rw [← hb] at h
            exact hevol te' st h
        · intro te' h
          by_cases hte : te' = te
          · rw [hte, hstq] at h
            cases h
          · refine hnone te' ?_
            rw [hbst te', if_neg hte]
            exact h
        · intro ent' hent' tp' te' ht' hg'
          rcases List.mem_cons.mp hent' with rfl | he'
          · rw [ht] at ht'
            cases ht'
            rw [hg] at hg'
            cases hg'
            have hb : wb.tileState te = some { nst with tile_type := Tile.Empty } := by
              rw [hbst te, if_pos rfl]
            refine ⟨{ nst with tile_type := Tile.Empty }, ?_, by intro hc; cases hc⟩
            exact hkeep te _ hb (by intro hc; cases hc)
          · refine hmark ent' he' tp' te' ?_ hg'
            rw [hbtr ent' (fun hc => hentnotin (hc ▸ he'))]
            exact ht'
      -- the marker tile is no longer WithCircle: only despawn the marker
      · have hrn : reset_neighbors w ent = some (w.despawn ent) := by
          simp [reset_neighbors, ht, hg, hstq, hty]
        have hbtr : ∀ x, x ≠ ent → (w.despawn ent).transform x = w.transform x := by
          intro x hx
          rw [despawn_transform, if_neg hx]
        have hwf' : ∀ e ∈ rest, resetWfAt (w.despawn ent) e = true := by
          intro e he
          obtain ⟨tp', te', ht', hg', hsome'⟩ := resetWfAt_iff.mp (hwf e (List.mem_cons_of_mem _ he))
          refine resetWfAt_iff.mpr ⟨tp', te', ?_, hg', hsome'⟩
          rw [hbtr e (fun hc => hentnotin (hc ▸ he))]
          exact ht'
        obtain ⟨w', hrun, hs, hk, hpt, hhl, htro, htri, hkeep, hevol, hnone, hmark⟩ :=
          ih (w.despawn ent) hwf' hndr
        have hloop : reset_loop (ent :: rest) w = some w' := by
          show (reset_neighbors w ent).bind (reset_loop rest) = some w'
          rw [hrn]
          exact hrun
        refine ⟨w', hloop, by rw [hs]; rfl, by rw [hk]; rfl, by rw [hpt]; rfl,
          ?_, ?_, ?_, ?_, ?_, ?_, ?_⟩
        · intro e
          rw [hhl e, despawn_highlights, List.mem_filter, bne_iff_ne, List.mem_cons]
          constructor
          · rintro ⟨⟨h1, h2⟩, h3⟩
            exact ⟨h1, fun hc => hc.elim (fun hc' => h2 hc') (fun hc' => h3 hc')⟩
          · rintro ⟨h1, h2⟩
            exact ⟨⟨h1, fun hc => h2 (Or.inl hc)⟩, fun hc => h2 (Or.inr hc)⟩
        · intro e he
          have he1 : e ≠ ent := fun hc => he (List.mem_cons.mpr (Or.inl hc))
          have he2 : e ∉ rest := fun hc => he (List.mem_cons.mpr (Or.inr hc))
          rw [htro e he2, hbtr e he1]
        · intro e he
          rcases List.mem_cons.mp he with rfl | he'
          · rw [htro e hentnotin, despawn_transform, if_pos rfl]
          · exact htri e he'
        · intro te' st h hnc
          exact hkeep te' st h hnc
        · intro te' st h
          exact hevol te' st h
        · intro te' h
          exact hnone te' h
        · intro ent' hent' tp' te' ht' hg'
          rcases List.mem_cons.mp hent' with rfl | he'
          · rw [ht] at ht'
            cases ht'
            rw [hg] at hg'
            cases hg'
            exact ⟨nst, hkeep te nst hstq hty, hty⟩
          · refine hmark ent' he' tp' te' ?_ hg'
            rw [hbtr ent' (fun hc => hentnotin (hc ▸ he'))]
            exact ht'

/-- Claim C9 (amended reading is the claim itself): a destination-chosen
(deselection) event arriving while no square is highlighted is a no-op —
the selected-circle query is empty (it is a sub-query of the highlight
query), the commit loop does nothing, the cleanup loop has nothing to
clean, no board square changes and no panic or error occurs. -/
theorem no_active_selection_noop (w : World) (s : Entity) (sel : List Entity)
    (hsub : ∀ e ∈ sel, e ∈ w.highlights) (hhl : w.highlights = []) :
    move_piece w s sel = some w := by
  have hsel : sel = [] := by
    cases sel with
    | nil => rfl
    | cons a rest => exact absurd (hsub a (by simp)) (by rw [hhl]; simp)
  subst hsel
  show (move_loop s [] w).bind (fun w1 => reset_loop w1.highlights w1) = some w
  show (some w).bind (fun w1 => reset_loop w1.highlights w1) = some w
  rw [Option.some_bind, hhl]
  rfl

/-- Witness for no_active_selection_noop on sampleWorld (no highlights). -/
theorem no_active_selection_noop_witness :
    move_piece sampleWorld 100 [] = some sampleWorld :=
  no_active_selection_noop sampleWorld 100 [] (by simp) rfl

/-- Claim C2, amended: a commit attempt whose destination tile is not
`WithCircle` is silently skipped — the commit loop leaves the world
untouched, and the overall outcome is identical to a deselection with no
commit attempt at all; no error value exists in the code, so the caller
cannot distinguish the two. -/
theorem illegal_destination_silent (w : World) (s c : Entity) (tp : TilePos)
    (te : Entity) (ts : TileState)
    (h1 : w.transform c = some tp) (h2 : w.storage.get tp = some te)
    (h3 : w.tileState te = some ts) (h4 : ts.tile_type ≠ Tile.WithCircle) :
    move_loop s [c] w = some w ∧ move_piece w s [c] = move_piece w s [] := by
  have hml : move_loop s [c] w = some w := by
    simp [move_loop, h1, h2, h3, h4]
  refine ⟨hml, ?_⟩
  show (move_loop s [c] w).bind (fun w1 => reset_loop w1.highlights w1) =
    (move_loop s [] w).bind (fun w1 => reset_loop w1.highlights w1)
  rw [hml]
  rfl

/-- Witness for illegal_destination_silent on illegalWorld. -/
theorem illegal_destination_silent_witness :
    move_loop 100 [101] illegalWorld = some illegalWorld ∧
    move_piece illegalWorld 100 [101] = move_piece illegalWorld 100 [] :=
  illegal_destination_silent illegalWorld 100 101 ⟨0, 1⟩ 1
    { tile_type := Tile.NotEmpty, piece_ent := none }
    (by decide) (by decide) (by decide) (by decide)

/-- Counterexample to claim C2 as stated: committing to the non-highlighted
square (0, 1) of illegalWorld does not fail with any error — the result is
`some` (a normal return), byte-for-byte identical to the result of a plain
deselection without any commit attempt, and every tile keeps its state.
The code has no IllegalDestination (or any other) error value. -/
theorem illegal_destination_counterexample :
    move_piece illegalWorld 100 [101] = move_piece illegalWorld 100 [] ∧
    (move_piece illegalWorld 100 [101]).isSome = true ∧
    (move_piece illegalWorld 100 [101]).map
      (fun w => allPositions.map (fun p => (tileAt w p).map TileState.tile_type)) =
      some (allPositions.map (fun p => (tileAt illegalWorld p).map TileState.tile_type)) := by
  refine ⟨rfl, rfl, by decide⟩

/-- Claim C3: a successful commit of the selected piece s to a highlighted
(WithCircle) destination sets the destination tile to NotEmpty, sets the
origin tile to Empty, leaves the moved piece's kind/team components intact
and relocates its visual entity (transform) to the destination square's
center. -/
theorem commit_success_updates (w : World) (s c : Entity) (dest orig : TilePos)
    (de oe : Entity) (ds os : TileState)
    (hc : w.transform c = some dest)
    (hde : w.storage.get dest = some de)
    (hds : w.tileState de = some ds)
    (hcirc : ds.tile_type = Tile.WithCircle)
    (hso : w.transform s = some orig)
    (hoe : w.storage.get orig = some oe)
    (hos : w.tileState oe = some os)
    (hne : oe ≠ de)
    (hsout : s ∉ w.highlights)
    (hnd : w.highlights.Nodup)
    (hwfm : ∀ e ∈ w.highlights, resetWfAt w e = true) :
    ∃ w', move_piece w s [c] = some w' ∧
      w'.transform s = some dest ∧
      w'.pieceKind s = w.pieceKind s ∧ w'.pieceTeam s = w.pieceTeam s ∧
      (∃ st, w'.tileState de = some st ∧ st.tile_type = Tile.NotEmpty ∧
        st.piece_ent = ds.piece_ent) ∧
      (∃ st, w'.tileState oe = some st ∧ st.tile_type = Tile.Empty ∧
        st.piece_ent = os.piece_ent) := by
  set w3 := ((w.setTileState de { ds with tile_type := Tile.NotEmpty }).setTileState
    oe { os with tile_type := Tile.Empty }).setTransform s dest with hw3
  have hml : move_loop s [c] w = some w3 := by
    simp [move_loop, hc, hde, hds, hcirc, hso, setTileState_tileState, hne, hoe, hos, hw3]
  have h3st : ∀ x, w3.tileState x =
      if x = oe then some { os with tile_type := Tile.Empty }
      else if x = de then some { ds with tile_type := Tile.NotEmpty }
      else w.tileState x := by
    intro x
    rw [hw3, setTransform_tileState, setTileState_tileState, setTileState_tileState]
  have h3tr : ∀ x, w3.transform x = if x = s then some dest else w.transform x := by
    intro x
    rw [hw3, setTransform_transform]
    rfl
  have h3hl : w3.highlights = w.highlights := by
    rw [hw3]
    simp
  have h3sg : w3.storage = w.storage := by
    rw [hw3]
    simp
  have hwf3 : ∀ e ∈ w3.highlights, resetWfAt w3 e = true := by
    intro e he
    rw [h3hl] at he
    obtain ⟨tp', te', ht', hg', hsome'⟩ := resetWfAt_iff.mp (hwfm e he)
    refine resetWfAt_iff.mpr ⟨tp', te', ?_, ?_, ?_⟩
    · have hes : e ≠ s := by
        intro hcc
        rw [hcc] at he
        exact hsout he
      rw [h3tr e, if_neg hes]
      exact ht'
    · rw [h3sg]
      exact hg'
    · rw [h3st te']
      by_cases h1 : te' = oe
      · rw [if_pos h1]
        rfl
      · rw [if_neg h1]
        by_cases h2 : te' = de
        · rw [if_pos h2]
          rfl
        · rw [if_neg h2]
          exact hsome'
  obtain ⟨w', hrun, hs', hk', hpt', hhl', htro, htri, hkeep, hevol, hnone, hmark⟩ :=
    reset_loop_spec w3.highlights w3 hwf3 (by rw [h3hl]; exact hnd)
  have hmp : move_piece w s [c] = some w' := by
    show (move_loop s [c] w).bind (fun w1 => reset_loop w1.highlights w1) = some w'
    rw [hml, Option.some_bind]
    exact hrun
  have hsout3 : s ∉ w3.highlights := by
    rw [h3hl]
    exact hsout
  refine ⟨w', hmp, ?_, ?_, ?_, ?_, ?_⟩
  · rw [htro s hsout3, h3tr s, if_pos rfl]
  · rw [hk', hw3]
    simp
  · rw [hpt', hw3]
    simp
  · refine ⟨{ ds with tile_type := Tile.NotEmpty }, ?_, rfl, rfl⟩
    refine hkeep de _ ?_ (by intro hcc; cases hcc)
    rw [h3st de, if_neg (fun hcc => hne hcc.symm), if_pos rfl]
  · refine ⟨{ os with tile_type := Tile.Empty }, ?_, rfl, rfl⟩
    refine hkeep oe _ ?_ (by intro hcc; cases hcc)
    rw [h3st oe, if_pos rfl]

set_option maxRecDepth 40000 in
/-- Witness for commit_success_updates on captureWorld. -/
theorem commit_success_updates_witness :
    ∃ w', move_piece captureWorld 100 [101] = some w' ∧
      w'.transform 100 = some ⟨0, 1⟩ ∧
      w'.pieceKind 100 = captureWorld.pieceKind 100 ∧
      w'.pieceTeam 100 = captureWorld.pieceTeam 100 ∧
      (∃ st, w'.tileState 1 = some st ∧ st.tile_type = Tile.NotEmpty ∧
        st.piece_ent = ({ tile_type := Tile.WithCircle, piece_ent := none } : TileState).piece_ent) ∧
      (∃ st, w'.tileState 0 = some st ∧ st.tile_type = Tile.Empty ∧
        st.piece_ent = ({ tile_type := Tile.NotEmpty, piece_ent := none } : TileState).piece_ent) :=
  commit_success_updates captureWorld 100 101 ⟨0, 1⟩ ⟨0, 0⟩ 1 0
    { tile_type := Tile.WithCircle, piece_ent := none }
    { tile_type := Tile.NotEmpty, piece_ent := none }
    (by decide) (by decide) (by decide) (by decide) (by decide) (by decide)
    (by decide) (by decide) (by decide) (by decide) (by decide)

/-- Claim C7: running the highlight cleanup over all markers removes the
circle flag from every covered square, despawns every marker, and running
it again immediately afterwards is a no-op: no panic and no marked square
remains. -/
theorem clear_all_idempotent (w : World)
    (hwf : ∀ e ∈ w.highlights, resetWfAt w e = true)
    (hnd : w.highlights.Nodup)
    (hcover : ∀ p ∈ allPositions, hasCircle w p = true →
      ∃ ent ∈ w.highlights, w.transform ent = some p) :
    ∃ w', reset_loop w.highlights w = some w' ∧
      w'.highlights = [] ∧
      (∀ e ∈ w.highlights, w'.transform e = none) ∧
      (∀ p te st, w'.storage.get p = some te → w'.tileState te = some st →
        st.tile_type ≠ Tile.WithCircle) ∧
      reset_loop w'.highlights w' = some w' := by
  obtain ⟨w', hrun, hs', hk', hpt', hhl', htro, htri, hkeep, hevol, hnone, hmark⟩ :=
    reset_loop_spec w.highlights w hwf hnd
  have hemp : w'.highlights = [] := by
    refine List.eq_nil_iff_forall_not_mem.mpr ?_
    intro e he
    exact ((hhl' e).mp he).2 ((hhl' e).mp he).1
  refine ⟨w', hrun, hemp, htri, ?_, by rw [hemp]; rfl⟩
  intro p te st hg hst hcirc
  rw [hs'] at hg
  rcases h0 : w.tileState te with _ | st0
  · rw [hnone te h0] at hst
    cases hst
  · by_cases h1 : st0.tile_type = Tile.WithCircle
    · have hon : is_on_board p = true := by
        by_contra hb
        rw [TileStorage.get, if_neg] at hg
        · cases hg
        · exact fun hcc => hb hcc
      have hcir : hasCircle w p = true := by
        unfold hasCircle tileAt
        rw [hg, Option.some_bind, h0]
        simp [h1]
      obtain ⟨ent, hentm, hto⟩ := hcover p (mem_allPositions.mpr hon) hcir
      obtain ⟨st', hw', hne'⟩ := hmark ent hentm p te hto hg
      rw [hw'] at hst
      cases hst
      exact hne' hcirc
    · rw [hkeep te st0 h0 h1] at hst
      cases hst
      exact h1 hcirc

set_option maxRecDepth 40000 in
/-- Witness for clear_all_idempotent on captureWorld (one marker on the
WithCircle square (0, 1)). -/
theorem clear_all_idempotent_witness :
    ∃ w', reset_loop captureWorld.highlights captureWorld = some w' ∧
      w'.highlights = [] ∧
      (∀ e ∈ captureWorld.highlights, w'.transform e = none) ∧
      (∀ p te st, w'.storage.get p = some te → w'.tileState te = some st →
        st.tile_type ≠ Tile.WithCircle) ∧
      reset_loop w'.highlights w' = some w' :=
  clear_all_idempotent captureWorld (by decide) (by decide) (by decide)

/-- Claim C4 evaluated at the failing input: after White commits onto the
highlighted square (0, 1) occupied by the Black pawn (entity 102), the
captured pawn's entity is never despawned or queued for removal — it still
stands at (0, 1) next to the moved piece, with its components intact, and
no marker other than the circle is removed (handle_piece_death has an empty
body and is never called). -/
theorem capture_not_removed :
    ((move_piece captureWorld 100 [101]).bind (fun w' => w'.transform 102)) = some ⟨0, 1⟩ ∧
    ((move_piece captureWorld 100 [101]).bind (fun w' => w'.transform 100)) = some ⟨0, 1⟩ ∧
    ((move_piece captureWorld 100 [101]).bind (fun w' => w'.pieceTeam 102)) = some Team.Black ∧
    ((move_piece captureWorld 100 [101]).bind (fun w' => w'.pieceKind 102)) = some Piece.Pawn := by
  refine ⟨by decide, by decide, by decide, by decide⟩

set_option maxRecDepth 100000 in
/-- Claim C5: the board produced at startup matches the fixed standard
layout exactly: White back rank on row 0, White pawns on row 1, Black pawns
on row 6, mirrored Black back rank on row 7, rows 2-5 Empty; 64 squares
with the right kind and team everywhere. -/
theorem setup_matches_layout :
    setup_pieces.map boardMatches = some true ∧ allPositions.length = 64 := by
  constructor
  · decide
  · decide

theorem rayPoint_succ_head (pos : TilePos) (d : SquareDirection) : ∀ j : Nat,
    rayPoint pos d (j + 1) =
      (checkedOffset pos d.offset).bind (fun r => rayPoint r d j) := by
  intro j
  induction j with
  | zero =>
    rcases hc : checkedOffset pos d.offset with _ | r <;> simp [rayPoint, hc]
  | succ j ih =>
    show (rayPoint pos d (j + 1)).bind (fun q => checkedOffset q d.offset) = _
    rw [ih, Option.bind_assoc]
    rcases hc : checkedOffset pos d.offset with _ | r
    · rfl
    · simp only [Option.some_bind]
      rfl

theorem match_isNone_eq_true {occ : TilePos → Option Team} {o : Option TilePos} :
    (match o with
      | some r => (occ r).isNone
      | none => false) = true ↔ ∃ r, o = some r ∧ occ r = none := by
  rcases o with _ | r
  · simp
  · simp [Option.isNone_iff_eq_none]

theorem ray_clear_iff {occ : TilePos → Option Team} {pos : TilePos}
    {d : SquareDirection} {k : Nat} :
    ray_clear_before occ pos d k = true ↔
      ∀ i, 1 ≤ i → i < k → ∃ r, rayPoint pos d i = some r ∧ occ r = none := by
  unfold ray_clear_before
  rw [List.all_eq_true]
  constructor
  · intro h i h1 h2
    have := h i (List.mem_range.mpr h2)
    rw [Bool.or_eq_true, beq_iff_eq] at this
    rcases this with h0 | hm
    · omega
    · exact match_isNone_eq_true.mp hm
  · intro h i hi
    rw [Bool.or_eq_true, beq_iff_eq]
    by_cases h0 : i = 0
    · exact Or.inl h0
    · exact Or.inr (match_isNone_eq_true.mpr
        (h i (by omega) (List.mem_range.mp hi)))

theorem walk_mem_iff (occ : TilePos → Option Team) (team : Team) (d : SquareDirection) :
    ∀ (fuel : Nat) (pos q : TilePos),
    q ∈ walkRay occ team pos d fuel ↔
      ∃ j, 1 ≤ j ∧ j ≤ fuel ∧ rayPoint pos d j = some q ∧
        (∀ i, 1 ≤ i → i < j → ∃ r, rayPoint pos d i = some r ∧ occ r = none) ∧
        (occ q = none ∨ ∃ t, occ q = some t ∧ t ≠ team) := by
  intro fuel
  induction fuel with
  | zero =>
    intro pos q
    simp only [walkRay, List.not_mem_nil, false_iff]
    rintro ⟨j, h1, h2, _⟩
    omega
  | succ fuel ih =>
    intro pos q
    unfold walkRay
    rcases hc : checkedOffset pos d.offset with _ | r
    · simp only [List.not_mem_nil, false_iff]
      rintro ⟨j, h1, h2, hr, _⟩
      rcases j with _ | j'
      · omega
      · rw [rayPoint_succ_head, hc] at hr
        cases hr
    · have hr1 : rayPoint pos d 1 = some r := by
        rw [rayPoint_succ_head, hc]
        rfl
      have hshift : ∀ i, rayPoint pos d (i + 1) = rayPoint r d i := by
        intro i
        rw [rayPoint_succ_head, hc]
        rfl
      rcases ho : occ r with _ | t
      · simp only [hc, ho]
        constructor
        · intro hmem
          rcases List.mem_cons.mp hmem with rfl | h'
          · exact ⟨1, by omega, by omega, hr1, by intro i h1 h2; omega, Or.inl ho⟩
          · obtain ⟨j, h1, h2, hr, hcl, hocc⟩ := (ih r q).mp h'
            refine ⟨j + 1, by omega, by omega, by rw [hshift]; exact hr, ?_, hocc⟩
            intro i hi1 hi2
            rcases i with _ | i'
            · omega
            · by_cases h0 : i' = 0
              · subst h0
                exact ⟨r, hr1, ho⟩
              · rw [hshift i']
                exact hcl i' (by omega) (by omega)
        · rintro ⟨j, h1, h2, hr, hcl, hocc⟩
          rcases j with _ | j'
          · omega
          · rw [hshift j'] at hr
            rcases Nat.eq_zero_or_pos j' with h0 | h0
            · subst h0
              cases hr
              exact List.mem_cons_self _ _
            · refine List.mem_cons_of_mem _ ((ih r q).mpr ⟨j', by omega, by omega, hr, ?_, hocc⟩)
              intro i hi1 hi2
              obtain ⟨r', hri, hoi⟩ := hcl (i + 1) (by omega) (by omega)
              rw [hshift i] at hri
              exact ⟨r', hri, hoi⟩
      · by_cases ht : t = team
        · simp only [hc, ho, if_pos ht]
          simp only [List.not_mem_nil, false_iff]
          rintro ⟨j, h1, h2, hr, hcl, hocc⟩
          rcases j with _ | j'
          · omega
          · rw [hshift j'] at hr
            rcases Nat.eq_zero_or_pos j' with h0 | h0
            · subst h0
              cases hr
              rcases hocc with hn | ⟨t', he, hne⟩
              · rw [ho] at hn
                cases hn
              · rw [ho] at he
                cases he
                exact hne ht
            · obtain ⟨r', hri, hoi⟩ := hcl 1 (by omega) (by omega)
              rw [hr1] at hri
              cases hri
              rw [ho] at hoi
              cases hoi
        · simp only [hc, ho, if_neg ht]
          constructor
          · intro hmem
            rcases List.mem_cons.mp hmem with rfl | h'
            · exact ⟨1, by omega, by omega, hr1, by intro i h1 h2; omega,
                Or.inr ⟨t, ho, ht⟩⟩
            · cases h'
          · rintro ⟨j, h1, h2, hr, hcl, hocc⟩
            rcases j with _ | j'
            · omega
            · rcases Nat.eq_zero_or_pos j' with h0 | h0
              · subst h0
                rw [hshift 0] at hr
                cases hr
                exact List.mem_cons_self _ _
              · obtain ⟨r', hri, hoi⟩ := hcl 1 (by omega) (by omega)
                rw [hr1] at hri
                cases hri
                rw [ho] at hoi
                cases hoi

theorem rayPoint_coord {d : SquareDirection} : ∀ {j : Nat} {pos q : TilePos},
    rayPoint pos d j = some q →
      (q.x : Int) = pos.x + j * d.offset.1 ∧ (q.y : Int) = pos.y + j * d.offset.2 := by
  intro j
  induction j with
  | zero =>
    intro pos q h
    cases h
    simp
  | succ j ih =>
    intro pos q h
    rw [show rayPoint pos d (j + 1) = (rayPoint pos d j).bind
      (fun m => checkedOffset m d.offset) from rfl] at h
    rcases hr : rayPoint pos d j with _ | m
    · rw [hr] at h
      cases h
    · rw [hr, Option.some_bind] at h
      obtain ⟨hqx, hqy, _⟩ := checkedOffset_eq_some.mp h
      obtain ⟨hmx, hmy⟩ := ih hr
      constructor
      · rw [hqx, hmx]
        push_cast
        ring
      · rw [hqy, hmy]
        push_cast
        ring

theorem rayPoint_inj {d : SquareDirection} {pos q : TilePos} {j j' : Nat}
    (h : rayPoint pos d j = some q) (h' : rayPoint pos d j' = some q) : j = j' := by
  have c := rayPoint_coord h
  have c' := rayPoint_coord h'
  cases d <;> simp [SquareDirection.offset] at c c' <;> omega

theorem walk_same_team_blocker {occ : TilePos → Option Team} {team : Team}
    {pos b : TilePos} {d : SquareDirection} {k : Nat}
    (hk : 1 ≤ k) (hb : rayPoint pos d k = some b) (ho : occ b = some team) :
    ∀ j q, k ≤ j → rayPoint pos d j = some q → q ∉ walkRay occ team pos d 8 := by
  intro j q hkj hq hmem
  obtain ⟨j', h1, h2, hr, hcl, hocc⟩ := (walk_mem_iff occ team d 8 pos q).mp hmem
  have hjj : j' = j := rayPoint_inj hr hq
  subst hjj
  rcases Nat.eq_or_lt_of_le hkj with rfl | hlt
  · rw [hb] at hq
    cases hq
    rcases hocc with hn | ⟨t', he, hne⟩
    · rw [ho] at hn
      cases hn
    · rw [ho] at he
      cases he
      exact hne rfl
  · obtain ⟨r', hrk, hor⟩ := hcl k hk hlt
    rw [hb] at hrk
    cases hrk
    rw [ho] at hor
    cases hor

theorem walk_capture_blocker {occ : TilePos → Option Team} {team : Team}
    {pos b : TilePos} {d : SquareDirection} {k : Nat} {t : Team}
    (hk : 1 ≤ k) (hk8 : k ≤ 8) (hb : rayPoint pos d k = some b)
    (ho : occ b = some t) (hne : t ≠ team)
    (hcl : ∀ i, 1 ≤ i → i < k → ∃ r, rayPoint pos d i = some r ∧ occ r = none) :
    b ∈ walkRay occ team pos d 8 ∧
      ∀ j q, k < j → rayPoint pos d j = some q → q ∉ walkRay occ team pos d 8 := by
  constructor
  · exact (walk_mem_iff occ team d 8 pos b).mpr
      ⟨k, hk, hk8, hb, hcl, Or.inr ⟨t, ho, hne⟩⟩
  · intro j q hkj hq hmem
    obtain ⟨j', h1, h2, hr, hcl', hocc⟩ := (walk_mem_iff occ team d 8 pos q).mp hmem
    have hjj : j' = j := rayPoint_inj hr hq
    subst hjj
    obtain ⟨r', hrk, hor⟩ := hcl' k hk hkj
    rw [hb] at hrk
    cases hrk
    rw [ho] at hor
    cases hor

/-- Claim C6 (the walk itself is modelled from the spec, since the
`movements` module is missing from the snapshot; the per-piece direction
lists are from src/src/piece.rs): the sliding generators walk each of the
piece's directions one square at a time, a square is generated exactly when
every strictly closer square on its ray is Empty and it is itself Empty or
opposing-occupied; a same-team blocker at distance k excludes every square
at distance at least k of that direction, and an opposing blocker at
distance k (with a clear path) is included and excludes every square
farther along. -/
theorem sliding_movement_spec :
    (∀ (occ : TilePos → Option Team) (team : Team) (pos : TilePos),
      get_piece_movements occ team pos Piece.Rock =
        some (sequencial_pieces occ team pos rock_directions) ∧
      get_piece_movements occ team pos Piece.Bishop =
        some (sequencial_pieces occ team pos bishop_directions) ∧
      get_piece_movements occ team pos Piece.Queen =
        some (sequencial_pieces occ team pos queen_directions)) ∧
    (∀ (occ : TilePos → Option Team) (team : Team) (pos : TilePos)
      (dirs : List SquareDirection) (q : TilePos),
      q ∈ sequencial_pieces occ team pos dirs ↔
        ∃ d ∈ dirs, q ∈ walkRay occ team pos d 8) ∧
    (∀ (occ : TilePos → Option Team) (team : Team) (pos : TilePos)
      (d : SquareDirection) (q : TilePos),
      q ∈ walkRay occ team pos d 8 ↔
        ∃ j, 1 ≤ j ∧ j ≤ 8 ∧ rayPoint pos d j = some q ∧
          ray_clear_before occ pos d j = true ∧
          (occ q = none ∨ ∃ t, occ q = some t ∧ t ≠ team)) ∧
    (∀ (occ : TilePos → Option Team) (team : Team) (pos b : TilePos)
      (d : SquareDirection) (k : Nat), 1 ≤ k →
      rayPoint pos d k = some b → occ b = some team →
      ∀ j q, k ≤ j → rayPoint pos d j = some q → q ∉ walkRay occ team pos d 8) ∧
    (∀ (occ : TilePos → Option Team) (team : Team) (pos b : TilePos)
      (d : SquareDirection) (k : Nat) (t : Team), 1 ≤ k → k ≤ 8 →
      rayPoint pos d k = some b → occ b = some t → t ≠ team →
      ray_clear_before occ pos d k = true →
      b ∈ walkRay occ team pos d 8 ∧
        ∀ j q, k < j → rayPoint pos d j = some q → q ∉ walkRay occ team pos d 8) := by
  refine ⟨?_, ?_, ?_, ?_, ?_⟩
  · intro occ team pos
    exact ⟨rfl, rfl, rfl⟩
  · intro occ team pos dirs q
    simp [sequencial_pieces]
  · intro occ team pos d q
    rw [walk_mem_iff]
    constructor
    · rintro ⟨j, h1, h2, hr, hcl, hocc⟩
      exact ⟨j, h1, h2, hr, ray_clear_iff.mpr hcl, hocc⟩
    · rintro ⟨j, h1, h2, hr, hcl, hocc⟩
      exact ⟨j, h1, h2, hr, ray_clear_iff.mp hcl, hocc⟩
  · intro occ team pos b d k hk hb ho
    exact walk_same_team_blocker hk hb ho
  · intro occ team pos b d k t hk hk8 hb ho hne hcl
    exact walk_capture_blocker hk hk8 hb ho hne (ray_clear_iff.mp hcl)

/-- Witness for sliding_movement_spec: on sampleOcc a White walker going
North from (0, 0) captures the Black piece at distance 4 and cannot reach
distance 5. -/
theorem sliding_movement_spec_witness :
    (⟨0, 4⟩ : TilePos) ∈ walkRay sampleOcc Team.White ⟨0, 0⟩ SquareDirection.North 8 ∧
    (⟨0, 5⟩ : TilePos) ∉ walkRay sampleOcc Team.White ⟨0, 0⟩ SquareDirection.North 8 := by
  have cap := sliding_movement_spec.2.2.2.2 sampleOcc Team.White ⟨0, 0⟩ ⟨0, 4⟩
    SquareDirection.North 4 Team.Black (by decide) (by decide) (by decide) (by decide)
    (by decide) (by decide)
  exact ⟨cap.1, cap.2 5 ⟨0, 5⟩ (by decide) (by decide)⟩
